import Mathlib

/-
Shallow embedding of the thrust-allocation and current-limiting engine of
src/seahawk/seahawk_deck/thrust.py (class Thrust).

Modelling conventions:
- Python floats are idealised as real numbers.
- Python lists of floats become List ℝ; the 6x8 motor-configuration matrix and
  its 8x6 pseudo-inverse become List (List ℝ) exactly as the source builds them.
- numpy.linalg.pinv (rcond = 1e-15) and the two curve_fit coefficient vectors
  are runtime numerics computed from library code and data files that are not
  part of the source tree; they are taken as parameters (pinv, thrust_fit,
  pwm_fit) of the model.
- numpy.roots is a numerical root finder; it is modelled relationally: a value
  is among the returned roots iff the coefficient list is not identically zero
  and the value is a root of the polynomial the coefficients denote (highest
  degree first).  min() of the non-negative real roots is modelled as the least
  such root; min() of an empty list raises ValueError, modelled as an explicit
  error outcome.
- A Python method that can raise becomes a relation/sum type over outcomes.
-/

open scoped Classical

noncomputable section

/-- Per-thruster maximum forward thrust in newtons: self.MAX_FWD_THRUST = 36.3826715 * 2. -/
def MAX_FWD_THRUST : ℝ := 36.3826715 * 2

/-- Per-thruster maximum reverse thrust in newtons: self.MAX_REV_THRUST = -28.6354180 * 2. -/
def MAX_REV_THRUST : ℝ := -28.6354180 * 2

/-- Total current limit in amperes: self.TOTAL_CURRENT_LIMIT = 70. -/
def TOTAL_CURRENT_LIMIT : ℝ := 70

/-- Per-ESC current limit in amperes: self.ESC_CURRENT_LIMIT = 40. -/
def ESC_CURRENT_LIMIT : ℝ := 40

/-- Index into a list of reals, defaulting to 0 (lists in the source are always
long enough at every access). -/
def getr (l : List ℝ) (i : Nat) : ℝ := l.getD i 0

/-- The fixed [X, Y, Z] position of each of the 8 motors (self.motor_positions). -/
def motor_positions : List (List ℝ) :=
  [[ 0.200,  0.130,  0.004],
   [ 0.200, -0.130,  0.047],
   [-0.200,  0.130,  0.047],
   [-0.200, -0.130,  0.047],
   [ 0.198,  0.156, -0.038],
   [ 0.198, -0.156, -0.038],
   [-0.198,  0.156, -0.038],
   [-0.198, -0.156, -0.038]]

/-- The fixed [X, Y, Z] thrust direction of each of the 8 motors (self.motor_thrusts). -/
def motor_thrusts : List (List ℝ) :=
  [[    0.0,     0.0, -1.0],
   [    0.0,     0.0,  1.0],
   [    0.0,     0.0,  1.0],
   [    0.0,     0.0, -1.0],
   [-0.7071,  0.7071,  0.0],
   [-0.7071, -0.7071,  0.0],
   [ 0.7071,  0.7071,  0.0],
   [ 0.7071, -0.7071,  0.0]]

/-- Cross product of two 3-vectors represented as lists (numpy.cross rowwise). -/
def cross3 (a b : List ℝ) : List ℝ :=
  [getr a 1 * getr b 2 - getr a 2 * getr b 1,
   getr a 2 * getr b 0 - getr a 0 * getr b 2,
   getr a 0 * getr b 1 - getr a 1 * getr b 0]

/-- Dot product of two equal-length real lists. -/
def dotL (r v : List ℝ) : ℝ := (List.zipWith (fun a b => a * b) r v).sum

/-- Matrix-vector product with the matrix given as a list of rows (numpy.matmul
of an 8x6 matrix with a 6-vector). -/
def matVecMul (m : List (List ℝ)) (v : List ℝ) : List ℝ := m.map (fun row => dotL row v)

/-- Thrust.generate_motor_config: the 6x8 motor-configuration matrix for a given
center-of-mass offset.  Rows are Fx, Fy, Fz taken straight from the thrust
directions and Rx, Ry, Rz from the cross products of the shifted positions with
the thrust directions. -/
def generate_motor_config (center_of_mass_offset : List ℝ) : List (List ℝ) :=
  let shifted_positons := motor_positions.map
    (fun motor => List.zipWith (fun a b => a - b) motor center_of_mass_offset)
  let torques := List.zipWith cross3 shifted_positons motor_thrusts
  [motor_thrusts.map (fun thrust => getr thrust 0),
   motor_thrusts.map (fun thrust => getr thrust 1),
   motor_thrusts.map (fun thrust => getr thrust 2),
   torques.map (fun torque => getr torque 0),
   torques.map (fun torque => getr torque 1),
   torques.map (fun torque => getr torque 2)]

/-- Thrust.__thrust_to_current: degree-6 calibration polynomial estimating the
current draw (A) of one thruster producing thrust x (N), with coefficient list
p = [a, b, c, d, e, f, g] (highest degree first). -/
def thrust_to_current (p : List ℝ) (x : ℝ) : ℝ :=
  getr p 0 * x ^ 6 + getr p 1 * x ^ 5 + getr p 2 * x ^ 4 + getr p 3 * x ^ 3 +
    getr p 4 * x ^ 2 + getr p 5 * x + getr p 6

/-- Thrust.get_polynomial_coef: coefficient list (highest degree first) of the
polynomial in the scaling factor whose roots bound the safe scaling, built from
the thrust_to_current fit parameters, the motor values and a current limit. -/
def get_polynomial_coef (fit : List ℝ) (mv : List ℝ) (limit : ℝ) : List ℝ :=
  [getr fit 0 * (mv.map (fun thrust => thrust ^ 6)).sum,
   getr fit 1 * (mv.map (fun thrust => thrust ^ 5)).sum,
   getr fit 2 * (mv.map (fun thrust => thrust ^ 4)).sum,
   getr fit 3 * (mv.map (fun thrust => thrust ^ 3)).sum,
   getr fit 4 * (mv.map (fun thrust => thrust ^ 2)).sum,
   getr fit 5 * mv.sum,
   getr fit 6 * (mv.length : ℝ) - limit]

/-- Value at x of the polynomial given by a coefficient list, highest degree
first (the polynomial numpy.roots receives). -/
def evalCoefs (coefs : List ℝ) (x : ℝ) : ℝ := coefs.foldl (fun acc c => acc * x + c) 0

/-- Membership of s in the real, non-negative roots numpy.roots returns for a
coefficient list: the list must not be identically zero (numpy strips leading
zeros and returns no roots for a constant or empty polynomial) and s must be a
real root with s >= 0 (the filter scalar.imag == 0 and scalar.real >= 0). -/
def IsRealNonnegRoot (coefs : List ℝ) (s : ℝ) : Prop :=
  (∃ c ∈ coefs, c ≠ 0) ∧ evalCoefs coefs s = 0 ∧ 0 ≤ s

/-- Thrust.get_current_scalar_value succeeding with value s: s is the minimum
real non-negative root of the current-limit polynomial for fit parameters fit,
motor values mv and current limit. -/
def IsCurrentScalar (fit mv : List ℝ) (limit s : ℝ) : Prop :=
  IsRealNonnegRoot (get_polynomial_coef fit mv limit) s ∧
    ∀ t, IsRealNonnegRoot (get_polynomial_coef fit mv limit) t → s ≤ t

/-- Thrust.get_current_scalar_value raising ValueError: the filtered root list
real_positive is empty, so min(real_positive) raises. -/
def CurrentScalarFails (fit mv : List ℝ) (limit : ℝ) : Prop :=
  ∀ s, ¬ IsRealNonnegRoot (get_polynomial_coef fit mv limit) s

/-- Thrust.get_minimum_current_scalar succeeding with value s: the minimum of
the three group scalars, all 8 motor values against TOTAL_CURRENT_LIMIT, the
first four (mv[:4]) against ESC_CURRENT_LIMIT and the last four (mv[4:])
against ESC_CURRENT_LIMIT. -/
def IsMinimumCurrentScalar (fit mv : List ℝ) (s : ℝ) : Prop :=
  ∃ total_scalar esc1_scalar esc2_scalar : ℝ,
    IsCurrentScalar fit mv TOTAL_CURRENT_LIMIT total_scalar ∧
    IsCurrentScalar fit (mv.take 4) ESC_CURRENT_LIMIT esc1_scalar ∧
    IsCurrentScalar fit (mv.drop 4) ESC_CURRENT_LIMIT esc2_scalar ∧
    s = min total_scalar (min esc1_scalar esc2_scalar)

/-- Thrust.get_minimum_current_scalar raising ValueError: some of the three
group computations finds no real non-negative root. -/
def MinimumCurrentScalarFails (fit mv : List ℝ) : Prop :=
  CurrentScalarFails fit mv TOTAL_CURRENT_LIMIT ∨
  CurrentScalarFails fit (mv.take 4) ESC_CURRENT_LIMIT ∨
  CurrentScalarFails fit (mv.drop 4) ESC_CURRENT_LIMIT

/-- One entry of the list Thrust.get_thrust_limit_scalar takes the minimum of:
MAX_FWD_THRUST / thrust for positive thrust, MAX_REV_THRUST / thrust for
negative thrust, and float infinity (modelled as the top element) for zero. -/
def thrustLimitEntry (thrust : ℝ) : WithTop ℝ :=
  if 0 < thrust then ((MAX_FWD_THRUST / thrust : ℝ) : WithTop ℝ)
  else if thrust < 0 then ((MAX_REV_THRUST / thrust : ℝ) : WithTop ℝ)
  else ⊤

/-- Thrust.get_thrust_limit_scalar: the minimum of the per-thruster limit
ratios, in the reals extended with infinity. -/
def get_thrust_limit_scalar (motor_values : List ℝ) : WithTop ℝ :=
  (motor_values.map thrustLimitEntry).foldr min ⊤

/-- Python min of a possibly-infinite thrust scalar and a finite current
scalar: min(inf, c) = c. -/
def minWithTop : WithTop ℝ → ℝ → ℝ
  | none, c => c
  | some t, c => min t c

/-- Python max([abs(val) for val in twist_array]): largest absolute component
of the twist array (folding with 0 is exact here since absolute values are
non-negative and the list is non-empty). -/
def maxAbs (l : List ℝ) : ℝ := (l.map (fun v => |v|)).foldr max 0

/-- The three linear then three angular components the source packs into
twist_array. -/
structure Vec3Msg where
  x : ℝ
  y : ℝ
  z : ℝ

/-- A geometry_msgs Twist message. -/
structure TwistMsg where
  linear : Vec3Msg
  angular : Vec3Msg

/-- The list twist_array built at the top of Thrust.generate_motor_values. -/
def twistArray (twist_msg : TwistMsg) : List ℝ :=
  [twist_msg.linear.x, twist_msg.linear.y, twist_msg.linear.z,
   twist_msg.angular.x, twist_msg.angular.y, twist_msg.angular.z]

/-- The zero twist array the fast path compares against. -/
def zeros6 : List ℝ := [0, 0, 0, 0, 0, 0]

/-- State of a Thrust node: the mutable fields of the Python object.  The
has_pwm_pub and has_thrust_pub flags record which publisher attributes exist
(each is created only in its branch of __init__). -/
structure ThrustState where
  publishing_pwm : Bool
  center_of_mass : List ℝ
  motor_config : List (List ℝ)
  inverse_config : List (List ℝ)
  thrust_fit_params : List ℝ
  pwm_fit_params : List ℝ
  has_pwm_pub : Bool
  has_thrust_pub : Bool

/-- Outcome of a call to Thrust.generate_motor_values.  The allocationError
constructor is Modelled from the spec: an explicit AllocationError result the
error-handling design requires when no safe scalar can be certified; no such
class or result exists anywhere in the source. -/
inductive MotorValuesResult where
  | ok (motor_values : List ℝ)
  | valueError
  | allocationError

/-- Thrust.generate_motor_values as a relation between the node state, the
incoming twist message and the outcome: the zero-twist fast path returns eight
zeros before any matrix operation; otherwise the raw motor values are the
inverse configuration times the twist array, and on success every output is
the raw value times min(thrust scalar, current scalar) * max(abs(twist));
if some current-limit group has no real non-negative root, min() raises
ValueError. -/
def GeneratesMotorValues (st : ThrustState) (twist_msg : TwistMsg)
    (r : MotorValuesResult) : Prop :=
  (twistArray twist_msg = zeros6 ∧ r = MotorValuesResult.ok (List.replicate 8 (0 : ℝ))) ∨
  (twistArray twist_msg ≠ zeros6 ∧
    (let motor_values := matVecMul st.inverse_config (twistArray twist_msg)
     (∃ current_scalar, IsMinimumCurrentScalar st.thrust_fit_params motor_values current_scalar ∧
        r = MotorValuesResult.ok (motor_values.map
          (fun thrust => thrust *
            (minWithTop (get_thrust_limit_scalar motor_values) current_scalar *
              maxAbs (twistArray twist_msg))))) ∨
     (MinimumCurrentScalarFails st.thrust_fit_params motor_values ∧
        r = MotorValuesResult.valueError)))

/-- Thrust.newtons_to_pwm: degree-5 calibration polynomial converting a thrust
in newtons to a PWM value, with coefficient list p = [a, b, c, d, e, f]. -/
def newtons_to_pwm (p : List ℝ) (x : ℝ) : ℝ :=
  getr p 0 * x ^ 5 + getr p 1 * x ^ 4 + getr p 2 * x ^ 3 + getr p 3 * x ^ 2 +
    getr p 4 * x + getr p 5

/-- Python int(): truncation of a real toward zero. -/
def pyInt (x : ℝ) : ℤ := if 0 ≤ x then ⌊x⌋ else ⌈x⌉

/-- One slot of Thrust.pwm_callback: convert the scaled thrust to an integer
PWM value, clamp to [1100, 1900], then force 1500 when the thrust is exactly
zero (the override happens after the clamp). -/
def pwmOfNewton (p : List ℝ) (newton : ℝ) : ℤ :=
  let raw := pyInt (newtons_to_pwm p newton)
  let clamped := if 1900 < raw then 1900 else if raw < 1100 then 1100 else raw
  if newton = 0 then 1500 else clamped

/-- The data array Thrust.pwm_callback publishes, given the scaled motor
values (the loop fills all eight slots since motor_values has length 8). -/
def pwmData (p : List ℝ) (motor_values : List ℝ) : List ℤ :=
  motor_values.map (fun newton => pwmOfNewton p newton)

/-- Thrust.pwm_callback publishing a message: generate_motor_values must
return normally and the published data is its output converted slotwise. -/
def PwmCallbackPublishes (st : ThrustState) (twist_msg : TwistMsg) (msg : List ℤ) : Prop :=
  ∃ motor_values, GeneratesMotorValues st twist_msg (MotorValuesResult.ok motor_values) ∧
    msg = pwmData st.pwm_fit_params motor_values

/-- Thrust.__init__, parameterised by the numerical pseudo-inverse routine
(numpy.linalg.pinv with rcond = 1e-15), the publishing_pwm parameter value and
the two fitted coefficient vectors (computed by curve_fit from data files).
The pwm publisher attribute is created only when publishing_pwm is true, the
thrust publisher only when it is false. -/
def initThrust (pinv : List (List ℝ) → List (List ℝ)) (publishing_pwm : Bool)
    (thrust_fit pwm_fit : List ℝ) : ThrustState :=
  { publishing_pwm := publishing_pwm
    center_of_mass := [0, 0, 0]
    motor_config := generate_motor_config [0, 0, 0]
    inverse_config := pinv (generate_motor_config [0, 0, 0])
    thrust_fit_params := thrust_fit
    pwm_fit_params := pwm_fit
    has_pwm_pub := publishing_pwm
    has_thrust_pub := !publishing_pwm }

/-- One parameter of the rclpy set-parameters callback, with its value already
converted by tolist(). -/
structure ParamMsg where
  name : String
  value : List ℝ

/-- Thrust.update_center_of_mass: scan the parameter list; on the first
parameter named center_of_mass_increment whose value has length 3, either
reset the offset (zero delta) or increment it componentwise, rebuild both the
motor configuration and its pseudo-inverse, and return success; any other
parameter, including a center_of_mass_increment of the wrong length, is
skipped, and if none matches the state is unchanged and failure is returned. -/
def update_center_of_mass (pinv : List (List ℝ) → List (List ℝ)) :
    ThrustState → List ParamMsg → ThrustState × Bool
  | st, [] => (st, false)
  | st, p :: rest =>
    if p.name = "center_of_mass_increment" ∧ p.value.length = 3 then
      let com := if p.value = ([0, 0, 0] : List ℝ) then p.value
                 else List.zipWith (fun a b => a + b) st.center_of_mass p.value
      ({ st with
          center_of_mass := com
          motor_config := generate_motor_config com
          inverse_config := pinv (generate_motor_config com) }, true)
    else update_center_of_mass pinv st rest

/-- Outcome of Thrust.__del__: either the final PWM message is published, or
looking up self.pwm_pub raises AttributeError (the attribute is only created
when publishing_pwm was true at startup). -/
inductive TeardownResult where
  | published (pwm_values : List ℤ)
  | attributeError

/-- Thrust.__del__: publish [1500] * 8 on the pwm publisher if it exists. -/
def delThrust (st : ThrustState) : TeardownResult :=
  if st.has_pwm_pub then TeardownResult.published (List.replicate 8 1500)
  else TeardownResult.attributeError

/-- The stored matrices agree with the current center of mass: the motor
configuration is generated from the stored offset and the inverse
configuration is the pseudo-inverse of the stored motor configuration. -/
def ConfigsConsistent (pinv : List (List ℝ) → List (List ℝ)) (st : ThrustState) : Prop :=
  st.motor_config = generate_motor_config st.center_of_mass ∧
  st.inverse_config = pinv st.motor_config

/-- A concrete stand-in for the numerical pseudo-inverse routine, used to
instantiate the model at concrete states: every motor row listens to the surge
component only. -/
def cPinv : List (List ℝ) → List (List ℝ) := fun _ => List.replicate 8 [1, 0, 0, 0, 0, 0]

/-- A concrete linear thrust-to-current fit: estimated current equals thrust. -/
def cFit : List ℝ := [0, 0, 0, 0, 0, 1, 0]

/-- A concrete constant thrust-to-current fit whose quiescent draw over eight
thrusters already exceeds the total current limit, so the current-limiting
polynomial has no root at all. -/
def c2Fit : List ℝ := [0, 0, 0, 0, 0, 0, 10]

/-- Concrete node state with the linear fit. -/
def cState : ThrustState := initThrust cPinv true cFit []

/-- Concrete node state with the rootless fit. -/
def c2State : ThrustState := initThrust cPinv true c2Fit []

/-- Pure-surge twist message of magnitude T. -/
def surgeTwist (T : ℝ) : TwistMsg := ⟨⟨T, 0, 0⟩, ⟨0, 0, 0⟩⟩

/-- Folding min over a list starting from a top value is bounded by every
member of the list. -/
theorem foldr_min_le_of_mem {α : Type*} [LinearOrder α] {x : α} {l : List α} (top : α)
    (hx : x ∈ l) : l.foldr min top ≤ x := by
  induction l with
  | nil => cases hx
  | cons a l ih =>
    rcases List.mem_cons.mp hx with h | h
    · rw [h]; exact min_le_left _ _
    · exact le_trans (min_le_right _ _) (ih h)

/-- A lower bound of every member and of the start value bounds the min fold. -/
theorem le_foldr_min {α : Type*} [LinearOrder α] {a top : α} {l : List α}
    (h : ∀ x ∈ l, a ≤ x) (ht : a ≤ top) : a ≤ l.foldr min top := by
  induction l with
  | nil => exact ht
  | cons b l ih =>
    exact le_min (h b (List.mem_cons_self b l)) (ih fun x hx => h x (List.mem_cons_of_mem b hx))

/-- A strict lower bound of every member and of the start value strictly
bounds the min fold. -/
theorem lt_foldr_min {α : Type*} [LinearOrder α] {a top : α} {l : List α}
    (h : ∀ x ∈ l, a < x) (ht : a < top) : a < l.foldr min top := by
  induction l with
  | nil => exact ht
  | cons b l ih =>
    exact lt_min (h b (List.mem_cons_self b l)) (ih fun x hx => h x (List.mem_cons_of_mem b hx))

/-- Min fold over a non-empty constant list is the constant. -/
theorem foldr_min_top_replicate {α : Type*} [LinearOrder α] [OrderTop α] (x : α) :
    ∀ n : ℕ, n ≠ 0 → (List.replicate n x).foldr min ⊤ = x
  | 0, h => absurd rfl h
  | 1, _ => by simp
  | (n + 2), _ => by
    rw [List.replicate_succ, List.foldr_cons, foldr_min_top_replicate x (n + 1) (by omega),
      min_self]

/-- Unfolding minWithTop on a finite thrust scalar. -/
theorem minWithTop_coe (a c : ℝ) : minWithTop (a : WithTop ℝ) c = min a c := rfl

/-- Unfolding minWithTop on an infinite thrust scalar. -/
theorem minWithTop_top (c : ℝ) : minWithTop ⊤ c = c := rfl

/-- Every pair of a list zipped with its own image under f has the shape
(x, f x). -/
theorem snd_eq_of_mem_zip_map {α β : Type*} (f : α → β) :
    ∀ (l : List α) (p : α × β), p ∈ l.zip (l.map f) → p.2 = f p.1
  | [], p, hp => by cases hp
  | a :: l, p, hp => by
    rcases List.mem_cons.mp hp with h | h
    · rw [h]
    · exact snd_eq_of_mem_zip_map f l p h

/-- C3: the claim says teardown emits one all-1500 neutral command in both
output modes; the code only ever creates the pwm publisher in PWM mode, so in
thrust mode __del__ hits a missing attribute and emits nothing, while in PWM
mode it does publish the all-1500 command.  This theorem evaluates the model
of __del__ on both startup modes. -/
theorem C3_teardown_modes :
    delThrust (initThrust (fun m => m) false [] []) = TeardownResult.attributeError ∧
    delThrust (initThrust (fun m => m) true [] []) =
      TeardownResult.published (List.replicate 8 1500) := by
  constructor <;> rfl

/-- C6: the center-of-mass update handler, called with one parameter named
center_of_mass_increment: a value of the wrong length leaves the whole state
unchanged and reports failure; the exact zero delta resets the offset to the
origin and rebuilds both matrices before reporting success; any other
3-component delta is added componentwise to the current offset, and both
matrices are rebuilt from the new offset before success is reported. -/
theorem C6_center_of_mass_update (pinv : List (List ℝ) → List (List ℝ))
    (st : ThrustState) (v : List ℝ) :
    (v.length ≠ 3 →
      update_center_of_mass pinv st [⟨"center_of_mass_increment", v⟩] = (st, false)) ∧
    (update_center_of_mass pinv st [⟨"center_of_mass_increment", [0, 0, 0]⟩] =
      ({ st with
          center_of_mass := [0, 0, 0]
          motor_config := generate_motor_config [0, 0, 0]
          inverse_config := pinv (generate_motor_config [0, 0, 0]) }, true)) ∧
    (v.length = 3 → v ≠ [0, 0, 0] →
      update_center_of_mass pinv st [⟨"center_of_mass_increment", v⟩] =
      ({ st with
          center_of_mass := List.zipWith (fun a b => a + b) st.center_of_mass v
          motor_config :=
            generate_motor_config (List.zipWith (fun a b => a + b) st.center_of_mass v)
          inverse_config :=
            pinv (generate_motor_config (List.zipWith (fun a b => a + b) st.center_of_mass v)) },
        true)) := by
  refine ⟨fun h => ?_, ?_, fun h3 hz => ?_⟩
  · rw [update_center_of_mass, if_neg fun hc => h hc.2, update_center_of_mass]
  · rw [update_center_of_mass, if_pos ⟨rfl, rfl⟩, if_pos rfl]
  · rw [update_center_of_mass, if_pos ⟨rfl, h3⟩, if_neg hz]

/-- Witness for C6 at a concrete rejected update: a length-2 value is refused
and the state is returned unchanged with a failure flag. -/
theorem C6_center_of_mass_update_witness :
    update_center_of_mass (fun m => m) (initThrust (fun m => m) true [] [])
        [⟨"center_of_mass_increment", [1, 2]⟩] =
      (initThrust (fun m => m) true [] [], false) :=
  (C6_center_of_mass_update (fun m => m) (initThrust (fun m => m) true [] []) [1, 2]).1
    (by norm_num)

/-- Preservation half of the matrix-consistency invariant: any call to the
parameter callback, accepted or rejected, keeps the stored matrices derived
from the stored center of mass. -/
theorem consistent_update (pinv : List (List ℝ) → List (List ℝ)) :
    ∀ (params : List ParamMsg) (st : ThrustState), ConfigsConsistent pinv st →
      ConfigsConsistent pinv (update_center_of_mass pinv st params).1
  | [], _, h => h
  | p :: rest, st, h => by
    rw [update_center_of_mass]
    split
    · exact ⟨rfl, rfl⟩
    · exact consistent_update pinv rest st h

/-- C9: at startup and after every accepted or rejected center-of-mass update,
the stored motor configuration is the one generated from the stored offset and
the stored inverse configuration is the pseudo-inverse (the model of
numpy.linalg.pinv with rcond = 1e-15) of the stored motor configuration; the
two matrices are never updated separately. -/
theorem C9_matrices_consistent (pinv : List (List ℝ) → List (List ℝ))
    (publishing_pwm : Bool) (thrust_fit pwm_fit : List ℝ)
    (st : ThrustState) (params : List ParamMsg) :
    ConfigsConsistent pinv (initThrust pinv publishing_pwm thrust_fit pwm_fit) ∧
    (ConfigsConsistent pinv st →
      ConfigsConsistent pinv (update_center_of_mass pinv st params).1) :=
  ⟨⟨rfl, rfl⟩, consistent_update pinv params st⟩

/-- Witness for C9: the invariant holds concretely after an accepted update
applied to the freshly initialised state. -/
theorem C9_matrices_consistent_witness :
    ConfigsConsistent (fun m => m)
      (update_center_of_mass (fun m => m) (initThrust (fun m => m) true [] [])
        [⟨"center_of_mass_increment", [1, 2, 3]⟩]).1 :=
  (C9_matrices_consistent (fun m => m) true [] []
      (initThrust (fun m => m) true [] []) [⟨"center_of_mass_increment", [1, 2, 3]⟩]).2
    (C9_matrices_consistent (fun m => m) true [] []
      (initThrust (fun m => m) true [] []) []).1

/-- C7: for the exactly-zero twist the allocator returns the all-zero
8-element thrust vector, for every state (hence for every center-of-mass
offset, every inverse configuration and every calibration fit: the outcome is
fixed before any matrix-vector product or root computation is consulted), and
this is the only possible outcome, so the fast path cannot raise either. -/
theorem C7_zero_twist_fast_path (st : ThrustState) (twist_msg : TwistMsg)
    (h : twistArray twist_msg = zeros6) (r : MotorValuesResult) :
    GeneratesMotorValues st twist_msg r ↔
      r = MotorValuesResult.ok (List.replicate 8 (0 : ℝ)) := by
  unfold GeneratesMotorValues
  simp [h]

/-- Witness for C7 at the zero twist message and a concrete state. -/
theorem pwmOfNewton_range (p : List ℝ) (newton : ℝ) :
    1100 ≤ pwmOfNewton p newton ∧ pwmOfNewton p newton ≤ 1900 := by
  simp only [pwmOfNewton]
  split_ifs <;> omega

/-- The zero-thrust override: after the clamp, a thrust of exactly zero is
replaced by the neutral 1500, whatever the calibration polynomial gives. -/
theorem pwmOfNewton_zero (p : List ℝ) : pwmOfNewton p 0 = 1500 := by
  simp [pwmOfNewton]

/-- C8: every PWM value the callback publishes lies in [1100, 1900], and the
slot conversion maps a scaled thrust of exactly 0 N to exactly 1500 for every
calibration fit, overriding the polynomial value at x = 0. -/
theorem C8_pwm_range_and_zero_override (st : ThrustState) (twist_msg : TwistMsg)
    (msg : List ℤ) (h : PwmCallbackPublishes st twist_msg msg) :
    (∀ v ∈ msg, 1100 ≤ v ∧ v ≤ 1900) ∧
    ∀ (p : List ℝ) (newton : ℝ), newton = 0 → pwmOfNewton p newton = 1500 := by
  constructor
  · rcases h with ⟨mv, _, rfl⟩
    intro v hv
    rcases List.mem_map.mp hv with ⟨newton, _, rfl⟩
    exact pwmOfNewton_range _ _
  · intro p newton hn
    rw [hn]
    exact pwmOfNewton_zero p

/-- The zero twist publishes through the PWM callback: the fast path returns
eight zeros and each converts to 1500. -/
theorem pwm_publishes_at_zero :
    PwmCallbackPublishes (initThrust (fun m => m) true [] []) ⟨⟨0, 0, 0⟩, ⟨0, 0, 0⟩⟩
      (pwmData [] (List.replicate 8 (0 : ℝ))) :=
  ⟨List.replicate 8 (0 : ℝ), Or.inl ⟨by simp [twistArray, zeros6], rfl⟩, rfl⟩

/-- Witness for C8 at a concrete published message. -/
theorem C8_pwm_range_and_zero_override_witness :
    pwmOfNewton ([] : List ℝ) 0 = 1500 :=
  (C8_pwm_range_and_zero_override (initThrust (fun m => m) true [] [])
    ⟨⟨0, 0, 0⟩, ⟨0, 0, 0⟩⟩ (pwmData [] (List.replicate 8 (0 : ℝ)))
    pwm_publishes_at_zero).2 [] 0 rfl

/-- Expansion of the summed per-thruster current at a scaled operating point:
the sum over the motor values of the degree-6 calibration polynomial evaluated
at s * f equals the polynomial in s whose k-th coefficient couples the fit
parameter for degree k with the sum of k-th powers of the motor values. -/
theorem sum_map_thrust_to_current (fit : List ℝ) (s : ℝ) :
    ∀ mv : List ℝ, (mv.map (fun f => thrust_to_current fit (s * f))).sum =
      getr fit 0 * (mv.map (fun t => t ^ 6)).sum * s ^ 6 +
      getr fit 1 * (mv.map (fun t => t ^ 5)).sum * s ^ 5 +
      getr fit 2 * (mv.map (fun t => t ^ 4)).sum * s ^ 4 +
      getr fit 3 * (mv.map (fun t => t ^ 3)).sum * s ^ 3 +
      getr fit 4 * (mv.map (fun t => t ^ 2)).sum * s ^ 2 +
      getr fit 5 * mv.sum * s + getr fit 6 * (mv.length : ℝ)
  | [] => by simp
  | a :: l => by
    simp only [List.map_cons, List.sum_cons]
    rw [sum_map_thrust_to_current fit s l]
    simp only [thrust_to_current, List.length_cons]
    push_cast
    ring

/-- C5: the coefficient list built by get_polynomial_coef denotes exactly the
polynomial s maps to the total estimated current of the scaled motor values
minus the limit (so coefficient k is the fit parameter of degree k times the
sum of k-th powers, and the constant term is the constant fit parameter times
the count, minus the limit); and the overall current-limit scalar is the
minimum of the three group scalars: all motor values against
TOTAL_CURRENT_LIMIT, the first four against ESC_CURRENT_LIMIT and the last
four against ESC_CURRENT_LIMIT. -/
theorem C5_current_polynomial_structure (fit mv : List ℝ) (limit s : ℝ) :
    evalCoefs (get_polynomial_coef fit mv limit) s =
      (mv.map (fun f => thrust_to_current fit (s * f))).sum - limit ∧
    ∀ scalar, IsMinimumCurrentScalar fit mv scalar →
      ∃ total_scalar esc1_scalar esc2_scalar,
        IsCurrentScalar fit mv TOTAL_CURRENT_LIMIT total_scalar ∧
        IsCurrentScalar fit (mv.take 4) ESC_CURRENT_LIMIT esc1_scalar ∧
        IsCurrentScalar fit (mv.drop 4) ESC_CURRENT_LIMIT esc2_scalar ∧
        scalar = min total_scalar (min esc1_scalar esc2_scalar) := by
  constructor
  · rw [sum_map_thrust_to_current]
    simp only [evalCoefs, get_polynomial_coef, List.foldl_cons, List.foldl_nil]
    ring
  · exact fun scalar h => h

/-- Witness for C5: the polynomial identity evaluated at a concrete fit,
motor-value list, limit and scaling factor. -/
theorem C5_current_polynomial_structure_witness :
    evalCoefs (get_polynomial_coef [0, 0, 0, 0, 0, 1, 0] [2, 3] 70) 1 =
      (([2, 3] : List ℝ).map
        (fun f => thrust_to_current [0, 0, 0, 0, 0, 1, 0] (1 * f))).sum - 70 :=
  (C5_current_polynomial_structure [0, 0, 0, 0, 0, 1, 0] [2, 3] 70 1).1

theorem C7_zero_twist_fast_path_witness :
    GeneratesMotorValues (initThrust (fun m => m) true [] [])
      ⟨⟨0, 0, 0⟩, ⟨0, 0, 0⟩⟩ (MotorValuesResult.ok (List.replicate 8 (0 : ℝ))) :=
  (C7_zero_twist_fast_path (initThrust (fun m => m) true [] []) ⟨⟨0, 0, 0⟩, ⟨0, 0, 0⟩⟩
    (by simp [twistArray, zeros6]) (MotorValuesResult.ok (List.replicate 8 (0 : ℝ)))).mpr rfl

theorem thrustLimitEntry_pos (t : ℝ) : (0 : WithTop ℝ) < thrustLimitEntry t := by
  unfold thrustLimitEntry
  split_ifs with h1 h2
  · exact WithTop.coe_pos.mpr (div_pos (by norm_num [MAX_FWD_THRUST]) h1)
  · exact WithTop.coe_pos.mpr (div_pos_of_neg_of_neg (by norm_num [MAX_REV_THRUST]) h2)
  · rw [← WithTop.coe_zero]
    exact WithTop.coe_lt_top 0

theorem get_thrust_limit_scalar_pos (mv : List ℝ) :
    (0 : WithTop ℝ) < get_thrust_limit_scalar mv := by
  unfold get_thrust_limit_scalar
  refine lt_foldr_min (fun x hx => ?_) ?_
  · rcases List.mem_map.mp hx with ⟨t, _, rfl⟩
    exact thrustLimitEntry_pos t
  · rw [← WithTop.coe_zero]
    exact WithTop.coe_lt_top 0

theorem minWithTop_nonneg : ∀ (ts : WithTop ℝ) (c : ℝ), 0 < ts → 0 ≤ c →
    0 ≤ minWithTop ts c
  | none, _, _, hc => hc
  | some a, c, hts, hc => by
    refine le_min ?_ hc
    rw [WithTop.some_eq_coe] at hts
    exact (WithTop.coe_pos.mp hts).le

theorem minWithTop_le_coe : ∀ {ts : WithTop ℝ} {c b : ℝ}, ts ≤ (b : WithTop ℝ) →
    minWithTop ts c ≤ b
  | none, _, b, h => absurd h (WithTop.not_top_le_coe b)
  | some a, c, b, h => by
    rw [WithTop.some_eq_coe] at h
    exact le_trans (min_le_left a c) (WithTop.coe_le_coe.mp h)

theorem isMinimumCurrentScalar_nonneg {fit mv : List ℝ} {s : ℝ}
    (h : IsMinimumCurrentScalar fit mv s) : 0 ≤ s := by
  obtain ⟨t, e1, e2, ht, he1, he2, rfl⟩ := h
  exact le_min ht.1.2.2 (le_min he1.1.2.2 he2.1.2.2)

theorem not_fails_of_isMin {fit mv : List ℝ} {s : ℝ}
    (h : IsMinimumCurrentScalar fit mv s) : ¬ MinimumCurrentScalarFails fit mv := by
  obtain ⟨t, e1, e2, ht, he1, he2, _⟩ := h
  rintro (hf | hf | hf)
  · exact hf t ht.1
  · exact hf e1 he1.1
  · exact hf e2 he2.1

theorem zero_le_foldr_max : ∀ l : List ℝ, 0 ≤ l.foldr max 0
  | [] => le_refl 0
  | a :: l => le_trans (zero_le_foldr_max l) (le_max_right a _)

theorem maxAbs_nonneg (l : List ℝ) : 0 ≤ maxAbs l := zero_le_foldr_max _

/-- C4: whenever a nonzero twist is processed to completion, the published
forces are exactly the raw allocated forces (inverse configuration times the
twist array) each multiplied by the single scalar min(thrust-limit scalar,
current-limit scalar) * max(abs(twist component)). -/
theorem C4_final_scalar_product (st : ThrustState) (twist_msg : TwistMsg) (out : List ℝ)
    (hnz : twistArray twist_msg ≠ zeros6)
    (h : GeneratesMotorValues st twist_msg (MotorValuesResult.ok out)) :
    ∃ current_scalar : ℝ,
      IsMinimumCurrentScalar st.thrust_fit_params
        (matVecMul st.inverse_config (twistArray twist_msg)) current_scalar ∧
      out = (matVecMul st.inverse_config (twistArray twist_msg)).map
        (fun thrust => thrust *
          (minWithTop
              (get_thrust_limit_scalar (matVecMul st.inverse_config (twistArray twist_msg)))
              current_scalar * maxAbs (twistArray twist_msg))) := by
  simp only [GeneratesMotorValues] at h
  rcases h with ⟨hz, _⟩ | ⟨_, ⟨s, hs, hr⟩ | ⟨_, hr⟩⟩
  · exact absurd hz hnz
  · exact ⟨s, hs, MotorValuesResult.ok.inj hr⟩
  · exact absurd hr (by simp)

theorem twistArray_surge (T : ℝ) : twistArray (surgeTwist T) = [T, 0, 0, 0, 0, 0] := rfl

theorem surge_ne_zeros {T : ℝ} (hT : T ≠ 0) : twistArray (surgeTwist T) ≠ zeros6 := by
  simp [twistArray, surgeTwist, zeros6, hT]

theorem matVec_cPinv (T : ℝ) :
    matVecMul (List.replicate 8 [1, 0, 0, 0, 0, 0]) [T, 0, 0, 0, 0, 0] =
      List.replicate 8 T := by
  simp [matVecMul, dotL, List.map_replicate]

theorem coef_cFit_replicate (n : ℕ) (T L : ℝ) :
    get_polynomial_coef cFit (List.replicate n T) L = [0, 0, 0, 0, 0, (n : ℝ) * T, -L] := by
  simp [get_polynomial_coef, cFit, getr, List.map_replicate, List.sum_replicate, nsmul_eq_mul]

theorem evalCoefs_linear (a b s : ℝ) : evalCoefs [0, 0, 0, 0, 0, a, b] s = a * s + b := by
  simp [evalCoefs]

/-- With the linear fit, the current-limit scalar of a group of n equal motor
values T under limit L is exactly L / (n * T). -/
theorem isCurrentScalar_cFit_replicate (n : ℕ) (T L : ℝ) (hn : n ≠ 0) (hT : 0 < T)
    (hL : 0 < L) : IsCurrentScalar cFit (List.replicate n T) L (L / (n * T)) := by
  have hn' : (0 : ℝ) < (n : ℝ) := by exact_mod_cast Nat.pos_of_ne_zero hn
  have hnT : (0 : ℝ) < (n : ℝ) * T := mul_pos hn' hT
  constructor
  · refine ⟨⟨(n : ℝ) * T, ?_, hnT.ne'⟩, ?_, by positivity⟩
    · rw [coef_cFit_replicate]
      simp
    · rw [coef_cFit_replicate, evalCoefs_linear]
      field_simp
  · rintro t ⟨_, ht, _⟩
    rw [coef_cFit_replicate, evalCoefs_linear] at ht
    have : t = L / ((n : ℝ) * T) := by
      field_simp
      linarith
    exact this.ge

/-- With the linear fit and eight equal motor values T, the overall minimum
current scalar is 70 / (8 T) (the total-current group binds before either
ESC group at 40 / (4 T)). -/
theorem isMinCurrentScalar_cFit (T : ℝ) (hT : 0 < T) :
    IsMinimumCurrentScalar cFit (List.replicate 8 T) (70 / (8 * T)) := by
  have htotal := isCurrentScalar_cFit_replicate 8 T 70 (by norm_num) hT (by norm_num)
  have hesc := isCurrentScalar_cFit_replicate 4 T 40 (by norm_num) hT (by norm_num)
  refine ⟨70 / (8 * T), 40 / (4 * T), 40 / (4 * T), ?_, ?_, ?_, ?_⟩
  · show IsCurrentScalar cFit (List.replicate 8 T) TOTAL_CURRENT_LIMIT (70 / (8 * T))
    have h8 : ((8 : ℕ) : ℝ) = (8 : ℝ) := by norm_num
    rw [TOTAL_CURRENT_LIMIT, ← h8]
    exact htotal
  · have h4 : ((4 : ℕ) : ℝ) = (4 : ℝ) := by norm_num
    rw [show (List.replicate 8 T).take 4 = List.replicate 4 T by simp [List.take_replicate],
      ESC_CURRENT_LIMIT, ← h4]
    exact hesc
  · have h4 : ((4 : ℕ) : ℝ) = (4 : ℝ) := by norm_num
    rw [show (List.replicate 8 T).drop 4 = List.replicate 4 T by simp [List.drop_replicate],
      ESC_CURRENT_LIMIT, ← h4]
    exact hesc
  · rw [min_self, eq_comm]
    apply min_eq_left
    rw [div_le_div_iff₀ (by positivity) (by positivity)]
    nlinarith

theorem maxAbs_surge (T : ℝ) (hT : 0 ≤ T) : maxAbs [T, 0, 0, 0, 0, 0] = T := by
  simp [maxAbs, abs_of_nonneg hT]
  exact hT

theorem thrust_limit_replicate (T : ℝ) (hT : 0 < T) :
    get_thrust_limit_scalar (List.replicate 8 T) =
      ((MAX_FWD_THRUST / T : ℝ) : WithTop ℝ) := by
  unfold get_thrust_limit_scalar
  rw [List.map_replicate, foldr_min_top_replicate _ 8 (by norm_num), thrustLimitEntry,
    if_pos hT]

/-- Full evaluation of generate_motor_values on the concrete state: for a
pure-surge twist of magnitude T > 0 the raw forces are eight copies of T, the
thrust-limit scalar is MAX_FWD_THRUST / T, the current-limit scalar is
70 / (8 T), and the published forces are eight copies of T * 8.75. -/
theorem gmv_cState (T : ℝ) (hT : 0 < T) :
    GeneratesMotorValues cState (surgeTwist T)
      (MotorValuesResult.ok (List.replicate 8 (T * 8.75))) := by
  have hinv : cState.inverse_config = List.replicate 8 [1, 0, 0, 0, 0, 0] := rfl
  have hfit : cState.thrust_fit_params = cFit := rfl
  simp only [GeneratesMotorValues]
  refine Or.inr ⟨surge_ne_zeros hT.ne', ?_⟩
  rw [twistArray_surge, hinv, hfit, matVec_cPinv]
  refine Or.inl ⟨70 / (8 * T), isMinCurrentScalar_cFit T hT, ?_⟩
  rw [thrust_limit_replicate T hT, minWithTop_coe, maxAbs_surge T hT.le]
  have hmin : min (MAX_FWD_THRUST / T) (70 / (8 * T)) = 70 / (8 * T) := by
    apply min_eq_right
    rw [div_le_div_iff₀ (by positivity) hT]
    rw [MAX_FWD_THRUST]
    nlinarith
  rw [hmin]
  have hscal : 70 / (8 * T) * T = 8.75 := by
    field_simp
    ring
  rw [hscal, List.map_replicate]

/-- C1 (amended): the scaled output forces stay inside
[MAX_REV_THRUST, MAX_FWD_THRUST] whenever the largest absolute twist component
is at most 1; the claim as frozen (for any twist) fails because the final
scalar multiplies the saturation ratio by that largest component. -/
theorem C1_bounded_for_normalized_twist (st : ThrustState) (twist_msg : TwistMsg)
    (out : List ℝ) (hmax : maxAbs (twistArray twist_msg) ≤ 1)
    (h : GeneratesMotorValues st twist_msg (MotorValuesResult.ok out)) :
    ∀ v ∈ out, MAX_REV_THRUST ≤ v ∧ v ≤ MAX_FWD_THRUST := by
  simp only [GeneratesMotorValues] at h
  rcases h with ⟨_, hr⟩ | ⟨_, ⟨s, hs, hr⟩ | ⟨_, hr⟩⟩
  · obtain rfl := MotorValuesResult.ok.inj hr
    intro v hv
    rw [List.eq_of_mem_replicate hv]
    norm_num [MAX_REV_THRUST, MAX_FWD_THRUST]
  · obtain rfl := MotorValuesResult.ok.inj hr
    intro v hv
    obtain ⟨x, hx, rfl⟩ := List.mem_map.mp hv
    set mv := matVecMul st.inverse_config (twistArray twist_msg) with hmv
    set q := minWithTop (get_thrust_limit_scalar mv) s with hqdef
    set m := maxAbs (twistArray twist_msg) with hmdef
    have hq0 : 0 ≤ q :=
      minWithTop_nonneg _ _ (get_thrust_limit_scalar_pos mv)
        (isMinimumCurrentScalar_nonneg hs)
    have hm0 : 0 ≤ m := maxAbs_nonneg _
    have hqm : q * m ≤ q := mul_le_of_le_one_right hq0 hmax
    have hqm0 : 0 ≤ q * m := mul_nonneg hq0 hm0
    rcases lt_trichotomy x 0 with hx0 | hx0 | hx0
    · have hts : get_thrust_limit_scalar mv ≤ ((MAX_REV_THRUST / x : ℝ) : WithTop ℝ) := by
        have hmem : thrustLimitEntry x ∈ mv.map thrustLimitEntry := List.mem_map_of_mem _ hx
        have hle := foldr_min_le_of_mem (⊤ : WithTop ℝ) hmem
        rw [thrustLimitEntry, if_neg (lt_asymm hx0), if_pos hx0] at hle
        exact hle
      have hb : q ≤ MAX_REV_THRUST / x := minWithTop_le_coe hts
      constructor
      · have h2 : x * q ≤ x * (q * m) := mul_le_mul_of_nonpos_left hqm hx0.le
        have h3 : x * (MAX_REV_THRUST / x) ≤ x * q := mul_le_mul_of_nonpos_left hb hx0.le
        have h4 : x * (MAX_REV_THRUST / x) = MAX_REV_THRUST := by
          rw [mul_comm]
          exact div_mul_cancel₀ _ hx0.ne
        linarith
      · have h5 : x * (q * m) ≤ 0 := mul_nonpos_iff.mpr (Or.inr ⟨hx0.le, hqm0⟩)
        have h6 : (0 : ℝ) ≤ MAX_FWD_THRUST := by norm_num [MAX_FWD_THRUST]
        linarith
    · rw [hx0]
      norm_num [MAX_REV_THRUST, MAX_FWD_THRUST]
    · have hts : get_thrust_limit_scalar mv ≤ ((MAX_FWD_THRUST / x : ℝ) : WithTop ℝ) := by
        have hmem : thrustLimitEntry x ∈ mv.map thrustLimitEntry := List.mem_map_of_mem _ hx
        have hle := foldr_min_le_of_mem (⊤ : WithTop ℝ) hmem
        rw [thrustLimitEntry, if_pos hx0] at hle
        exact hle
      have hb : q ≤ MAX_FWD_THRUST / x := minWithTop_le_coe hts
      constructor
      · have h5 : 0 ≤ x * (q * m) := mul_nonneg hx0.le hqm0
        have h6 : MAX_REV_THRUST ≤ 0 := by norm_num [MAX_REV_THRUST]
        linarith
      · have h2 : x * (q * m) ≤ x * q := mul_le_mul_of_nonneg_left hqm hx0.le
        have h3 : x * q ≤ x * (MAX_FWD_THRUST / x) := mul_le_mul_of_nonneg_left hb hx0.le
        have h4 : x * (MAX_FWD_THRUST / x) = MAX_FWD_THRUST := by
          rw [mul_comm]
          exact div_mul_cancel₀ _ hx0.ne'
        linarith
  · exact absurd hr (by simp)

/-- Counterexample to C1 as frozen: at a concrete state and the pure-surge
twist of magnitude 9, the allocator completes normally and every output force
is 78.75 N, strictly above MAX_FWD_THRUST = 72.765343 N: the scalar
min(thrust scalar, current scalar) * max(abs(twist)) does push outputs past
the per-thruster limits once the twist has a component larger than 1. -/
theorem C1_counterexample_exceeds_limit :
    GeneratesMotorValues cState (surgeTwist 9)
      (MotorValuesResult.ok (List.replicate 8 ((9 : ℝ) * 8.75))) ∧
    (9 : ℝ) * 8.75 ∈ List.replicate 8 ((9 : ℝ) * 8.75) ∧
    MAX_FWD_THRUST < (9 : ℝ) * 8.75 := by
  refine ⟨gmv_cState 9 (by norm_num), ?_, ?_⟩
  · simp
  · norm_num [MAX_FWD_THRUST]

/-- Witness for the amended C1 at the pure-surge twist of magnitude 1, where
every output force is 8.75 N, inside the limits. -/
theorem C1_bounded_for_normalized_twist_witness :
    MAX_REV_THRUST ≤ (1 : ℝ) * 8.75 ∧ (1 : ℝ) * 8.75 ≤ MAX_FWD_THRUST :=
  C1_bounded_for_normalized_twist cState (surgeTwist 1) (List.replicate 8 ((1 : ℝ) * 8.75))
    (by rw [twistArray_surge, maxAbs_surge 1 zero_le_one])
    (gmv_cState 1 one_pos) ((1 : ℝ) * 8.75) (by simp)

theorem c2_total_fails (T : ℝ) :
    CurrentScalarFails c2Fit (List.replicate 8 T) TOTAL_CURRENT_LIMIT := by
  rintro s ⟨_, hroot, _⟩
  have hc : get_polynomial_coef c2Fit (List.replicate 8 T) TOTAL_CURRENT_LIMIT =
      [0, 0, 0, 0, 0, 0, 10] := by
    simp [get_polynomial_coef, c2Fit, getr, TOTAL_CURRENT_LIMIT]
    norm_num
  rw [hc, evalCoefs_linear] at hroot
  norm_num at hroot

theorem c2State_fails :
    MinimumCurrentScalarFails c2State.thrust_fit_params
      (matVecMul c2State.inverse_config (twistArray (surgeTwist 1))) := by
  have h2 : matVecMul c2State.inverse_config (twistArray (surgeTwist 1)) =
      List.replicate 8 1 := by
    rw [twistArray_surge]
    exact matVec_cPinv 1
  rw [show c2State.thrust_fit_params = c2Fit from rfl, h2]
  exact Or.inl (c2_total_fails 1)

/-- C2 (amended): when some current-limit group has no real non-negative root,
generate_motor_values terminates in the unhandled ValueError raised by min()
on the empty filtered root list (this is the only possible outcome), and the
PWM callback publishes nothing for that twist; no explicit AllocationError
result exists in the code. -/
theorem C2_no_root_gives_valueError (st : ThrustState) (twist_msg : TwistMsg)
    (hnz : twistArray twist_msg ≠ zeros6)
    (hfail : MinimumCurrentScalarFails st.thrust_fit_params
      (matVecMul st.inverse_config (twistArray twist_msg))) :
    GeneratesMotorValues st twist_msg MotorValuesResult.valueError ∧
    (∀ r, GeneratesMotorValues st twist_msg r → r = MotorValuesResult.valueError) ∧
    ∀ msg, ¬ PwmCallbackPublishes st twist_msg msg := by
  have honly : ∀ r, GeneratesMotorValues st twist_msg r →
      r = MotorValuesResult.valueError := by
    intro r hr
    simp only [GeneratesMotorValues] at hr
    rcases hr with ⟨hz, _⟩ | ⟨_, ⟨s, hs, _⟩ | ⟨_, hr⟩⟩
    · exact absurd hz hnz
    · exact absurd hfail (not_fails_of_isMin hs)
    · exact hr
  refine ⟨?_, honly, ?_⟩
  · simp only [GeneratesMotorValues]
    exact Or.inr ⟨hnz, Or.inr ⟨hfail, trivial⟩⟩
  · rintro msg ⟨mv, hok, _⟩
    exact MotorValuesResult.noConfusion (honly _ hok)

/-- Counterexample to C2 as frozen: at a concrete state whose calibration
polynomial has no real non-negative root for the total-current group, the
outcome of generate_motor_values is the unhandled ValueError, and it is not
the AllocationError result the claim requires (no execution produces one). -/
theorem C2_counterexample_no_allocation_error :
    GeneratesMotorValues c2State (surgeTwist 1) MotorValuesResult.valueError ∧
    ¬ GeneratesMotorValues c2State (surgeTwist 1) MotorValuesResult.allocationError := by
  constructor
  · simp only [GeneratesMotorValues]
    exact Or.inr ⟨surge_ne_zeros one_ne_zero, Or.inr ⟨c2State_fails, trivial⟩⟩
  · intro hcontra
    simp only [GeneratesMotorValues] at hcontra
    rcases hcontra with ⟨hz, _⟩ | ⟨_, ⟨s, _, hr⟩ | ⟨_, hr⟩⟩
    · exact surge_ne_zeros one_ne_zero hz
    · exact MotorValuesResult.noConfusion hr
    · exact MotorValuesResult.noConfusion hr

/-- Witness for the amended C2 at the concrete rootless state. -/
theorem C2_no_root_gives_valueError_witness :
    GeneratesMotorValues c2State (surgeTwist 1) MotorValuesResult.valueError :=
  (C2_no_root_gives_valueError c2State (surgeTwist 1) (surge_ne_zeros one_ne_zero)
    c2State_fails).1

/-- C10: for every nonzero twist processed to completion, the thrust-limit
scalar is strictly positive, and the output is a non-negative scalar multiple
of the raw allocation (inverse configuration times twist array), so no
thruster direction is ever reversed: every raw/output pair has non-negative
product. -/
theorem C10_output_nonneg_multiple (st : ThrustState) (twist_msg : TwistMsg) (out : List ℝ)
    (hnz : twistArray twist_msg ≠ zeros6)
    (h : GeneratesMotorValues st twist_msg (MotorValuesResult.ok out)) :
    (0 : WithTop ℝ) <
      get_thrust_limit_scalar (matVecMul st.inverse_config (twistArray twist_msg)) ∧
    ∃ c : ℝ, 0 ≤ c ∧
      out = (matVecMul st.inverse_config (twistArray twist_msg)).map
        (fun thrust => thrust * c) ∧
      ∀ pr ∈ (matVecMul st.inverse_config (twistArray twist_msg)).zip out,
        0 ≤ pr.1 * pr.2 := by
  refine ⟨get_thrust_limit_scalar_pos _, ?_⟩
  simp only [GeneratesMotorValues] at h
  rcases h with ⟨hz, _⟩ | ⟨_, ⟨s, hs, hr⟩ | ⟨_, hr⟩⟩
  · exact absurd hz hnz
  · obtain rfl := MotorValuesResult.ok.inj hr
    have hc : 0 ≤ minWithTop
        (get_thrust_limit_scalar (matVecMul st.inverse_config (twistArray twist_msg))) s *
        maxAbs (twistArray twist_msg) :=
      mul_nonneg
        (minWithTop_nonneg _ _ (get_thrust_limit_scalar_pos _)
          (isMinimumCurrentScalar_nonneg hs))
        (maxAbs_nonneg _)
    refine ⟨_, hc, rfl, ?_⟩
    intro pr hpr
    have h2 := snd_eq_of_mem_zip_map _ _ pr hpr
    rw [h2]
    nlinarith [mul_nonneg (sq_nonneg pr.1) hc]
  · exact absurd hr (by simp)

/-- Witness for C10 at the concrete state and the unit pure-surge twist. -/
theorem C10_output_nonneg_multiple_witness :
    (0 : WithTop ℝ) < get_thrust_limit_scalar
        (matVecMul cState.inverse_config (twistArray (surgeTwist 1))) ∧
    ∃ c : ℝ, 0 ≤ c ∧
      List.replicate 8 ((1 : ℝ) * 8.75) =
        (matVecMul cState.inverse_config (twistArray (surgeTwist 1))).map
          (fun thrust => thrust * c) ∧
      ∀ pr ∈ (matVecMul cState.inverse_config (twistArray (surgeTwist 1))).zip
          (List.replicate 8 ((1 : ℝ) * 8.75)), 0 ≤ pr.1 * pr.2 :=
  C10_output_nonneg_multiple cState (surgeTwist 1) (List.replicate 8 ((1 : ℝ) * 8.75))
    (surge_ne_zeros one_ne_zero) (gmv_cState 1 one_pos)

/-- Witness for C4 at the concrete state and the unit pure-surge twist. -/
theorem C4_final_scalar_product_witness :
    ∃ current_scalar : ℝ,
      IsMinimumCurrentScalar cState.thrust_fit_params
        (matVecMul cState.inverse_config (twistArray (surgeTwist 1))) current_scalar ∧
      List.replicate 8 ((1 : ℝ) * 8.75) =
        (matVecMul cState.inverse_config (twistArray (surgeTwist 1))).map
          (fun thrust => thrust *
            (minWithTop (get_thrust_limit_scalar
                (matVecMul cState.inverse_config (twistArray (surgeTwist 1))))
                current_scalar * maxAbs (twistArray (surgeTwist 1)))) :=
  C4_final_scalar_product cState (surgeTwist 1) (List.replicate 8 ((1 : ℝ) * 8.75))
    (surge_ne_zeros one_ne_zero) (gmv_cState 1 one_pos)

end
